import Mathlib

/-!
Verification of `azure-scheduledevents-exporter` (`src/metrics.go`).

The Go file polls the Azure scheduled-events metadata endpoint and
republishes the result as Prometheus gauges.  This development gives a
shallow embedding of its data model and of the three functions with
decision logic — `probeCollect`, `fetchApiUrl` and `parseTime` — and
proves the specified properties about them.

Modelling choices, all noted where they occur:
* Go `int` is modelled as `Int` (no arithmetic here comes near overflow).
* Gauge values are Go `float64`; every value the code stores is either
  `0`, `1` or `float64(t.Unix())`, an integer far below `2^53`, so the
  conversion is exact and values are modelled as `Int`.
* `time.Parse` is Go standard-library code, external to the repository;
  it is abstracted as a parameter of type `GoTimeParse` (layout and
  value in, parsed time or failure out).
* The process-wide mutable state (`apiErrorCount` and the two gauge
  vectors) is passed explicitly; `panic` is modelled as a
  `CycleOutcome.panicked` result, log calls as an emitted `LogEntry`
  list.
-/

/-- Go struct `AzureScheduledEvent` (metrics.go lines 18-25). -/
structure AzureScheduledEvent where
  EventId : String
  EventType : String
  ResourceType : String
  Resources : List String
  EventStatus : String
  NotBefore : String
deriving Repr, DecidableEq

/-- Go struct `AzureScheduledEventResponse` (metrics.go lines 13-16). -/
structure AzureScheduledEventResponse where
  DocumentIncarnation : Int
  Events : List AzureScheduledEvent
deriving Repr, DecidableEq

/-- Prometheus `GaugeOpts`: the metric's name and help string. -/
structure GaugeOpts where
  Name : String
  Help : String
deriving Repr, DecidableEq

/-- A Prometheus `GaugeVec` descriptor: its options and label names, as
passed to `prometheus.NewGaugeVec`. -/
structure GaugeVecDesc where
  opts : GaugeOpts
  labelNames : List String
deriving Repr, DecidableEq

/-- The `scheduledEventDocumentIncarnation` gauge vector descriptor
(metrics.go lines 28-34). -/
def scheduledEventDocumentIncarnation : GaugeVecDesc :=
  { opts := { Name := "azure_scheduledevent_document_incarnation",
              Help := "Azure ScheduledEvent document incarnation" },
    labelNames := [] }

/-- The `scheduledEvent` gauge vector descriptor (metrics.go lines 36-42). -/
def scheduledEvent : GaugeVecDesc :=
  { opts := { Name := "azure_scheduledevent_event",
              Help := "Azure ScheduledEvent" },
    labelNames := ["eventID", "eventType", "resourceType", "resource",
                   "eventStatus", "notBefore"] }

/-- Go `time.RFC3339`. -/
def RFC3339 : String := "2006-01-02T15:04:05Z07:00"

/-- Go `time.RFC1123`. -/
def RFC1123 : String := "Mon, 02 Jan 2006 15:04:05 MST"

/-- Go `time.RFC822Z`. -/
def RFC822Z : String := "02 Jan 06 15:04 -0700"

/-- Go `time.RFC850`. -/
def RFC850 : String := "Monday, 02-Jan-06 15:04:05 MST"

/-- `timeFormatList` (metrics.go lines 44-49): the ordered layout list
tried by `parseTime`. -/
def timeFormatList : List String := [RFC3339, RFC1123, RFC822Z, RFC850]

/-- A parsed Go `time.Time`, reduced to the only observation the code
makes of it: its Unix epoch seconds (`.Unix()`). -/
structure GoTime where
  unix : Int
deriving Repr, DecidableEq

/-- Model of Go standard-library `time.Parse layout value`: external to
the repository, abstracted as a function from layout and value to the
parsed time (`some`) or a parse error (`none`). -/
def GoTimeParse : Type := String → String → Option GoTime

/-- `parseTime` (metrics.go lines 166-175): try each layout of
`timeFormatList` in order and return the first successful parse; `none`
when every layout fails.  (The Go loop keeps the last attempt's error
when all fail; since only nil-ness of the error is ever observed, the
result is `Option`.) -/
def parseTimeAux (timeParse : GoTimeParse) (value : String) :
    List String → Option GoTime
  | [] => none
  | format :: rest =>
    match timeParse format value with
    | some t => some t
    | none => parseTimeAux timeParse value rest

/-- `parseTime` applied to the fixed layout list. -/
def parseTime (timeParse : GoTimeParse) (value : String) : Option GoTime :=
  parseTimeAux timeParse value timeFormatList

/-- The full label tuple of one `scheduledEvent` sample
(metrics.go lines 116-122). -/
structure Labels where
  eventID : String
  eventType : String
  resourceType : String
  resource : String
  eventStatus : String
  notBefore : String
deriving Repr, DecidableEq

/-- The labels the code attaches to `event` for one `resource` string
(metrics.go lines 116-122 and 127-133, which differ only in `resource`). -/
def eventLabels (event : AzureScheduledEvent) (resource : String) : Labels :=
  { eventID := event.EventId
    eventType := event.EventType
    resourceType := event.ResourceType
    resource := resource
    eventStatus := event.EventStatus
    notBefore := event.NotBefore }

/-- One log call made by the code, tagged by call site. -/
inductive LogEntry where
  /-- `ErrorLogger.Error("Failed API call:", err)` (line 89). -/
  | apiFailure (err : String)
  /-- `ErrorLogger.Error("Unable to parse time ... of eventid ...", err)`
  (line 108), carrying the raw string and event id it interpolates. -/
  | parseFailure (notBefore : String) (eventId : String)
  /-- `Logger.Verbose("Fetched %v Azure ScheduledEvents", n)` (line 140). -/
  | fetchedVerbose (n : Nat)
deriving Repr, DecidableEq

/-- How one `probeCollect` call ends: a normal return, or `panic(err)`
(line 92). -/
inductive CycleOutcome where
  | ok
  | panicked (msg : String)
deriving Repr, DecidableEq

/-- The state of the `scheduledEvent` gauge vector: a finite map from
label tuples to values, kept as a duplicate-free association list.
`With(labels).Set(v)` replaces the sample with those labels. -/
def gaugeSet (vec : List (Labels × Int)) (l : Labels) (v : Int) :
    List (Labels × Int) :=
  vec.filter (fun p => p.1 ≠ l) ++ [(l, v)]

/-- The published metric state: the `scheduledEvent` vector and the
`scheduledEventDocumentIncarnation` sample (`none` before the first
successful cycle sets it). -/
structure MetricState where
  scheduledEventVec : List (Labels × Int)
  documentIncarnation : Option Int
deriving Repr, DecidableEq

/-- The process-wide mutable state `probeCollect` reads and writes:
`apiErrorCount` (metrics.go line 53) and the gauge vectors. -/
structure CollectorState where
  apiErrorCount : Int
  metrics : MetricState
deriving Repr, DecidableEq

/-- The configuration `probeCollect` consults: `opts.ApiErrorThreshold`,
a Go `int` (non-positive means unlimited tolerance). -/
structure Opts where
  ApiErrorThreshold : Int
deriving Repr, DecidableEq

/-- The per-event gauge value and the log entries its computation emits
(metrics.go lines 101-111): `1` when `NotBefore` is empty; otherwise the
parsed time's Unix seconds on success, or `0` plus a parse-failure log
entry on failure. -/
def eventValue (timeParse : GoTimeParse) (event : AzureScheduledEvent) :
    Int × List LogEntry :=
  if event.NotBefore ≠ "" then
    match parseTime timeParse event.NotBefore with
    | some notBefore => (notBefore.unix, [])
    | none => (0, [LogEntry.parseFailure event.NotBefore event.EventId])
  else
    (1, [])

/-- The body of the `for _, event := range scheduledEvents.Events` loop
(metrics.go lines 100-136) acting on the `scheduledEvent` vector: fan
out over the event's resources, or emit one empty-resource sample when
it has none. -/
def publishEvent (timeParse : GoTimeParse) (vec : List (Labels × Int))
    (event : AzureScheduledEvent) : List (Labels × Int) × List LogEntry :=
  let value := eventValue timeParse event
  let vec2 :=
    if event.Resources.length ≥ 1 then
      event.Resources.foldl
        (fun acc resource => gaugeSet acc (eventLabels event resource) value.1)
        vec
    else
      gaugeSet vec (eventLabels event "") value.1
  (vec2, value.2)

/-- One iteration of the event loop threading the vector and the
accumulated log entries. -/
def collectStep (timeParse : GoTimeParse)
    (acc : List (Labels × Int) × List LogEntry)
    (event : AzureScheduledEvent) : List (Labels × Int) × List LogEntry :=
  let r := publishEvent timeParse acc.1 event
  (r.1, acc.2 ++ r.2)

/-- The whole event loop, started on the vector `scheduledEvent.Reset()`
leaves behind: the empty one. -/
def collectEvents (timeParse : GoTimeParse)
    (events : List AzureScheduledEvent) :
    List (Labels × Int) × List LogEntry :=
  events.foldl (collectStep timeParse) ([], [])

/-- `probeCollect` (metrics.go lines 83-141).  The fetch outcome is
passed in (`Except`: `fetchApiUrl`'s error or response); the call
returns the new state, how the call ended, and the log entries emitted.
On failure: increment `apiErrorCount`; tolerate (log, return) when the
threshold is non-positive or not yet exceeded, else panic.  On success:
reset `apiErrorCount`, reset the event vector, republish every event,
then set the document-incarnation gauge. -/
def probeCollect (opts : Opts) (timeParse : GoTimeParse)
    (fetchResult : Except String AzureScheduledEventResponse)
    (st : CollectorState) : CollectorState × CycleOutcome × List LogEntry :=
  match fetchResult with
  | Except.error err =>
    let cnt := st.apiErrorCount + 1
    if opts.ApiErrorThreshold ≤ 0 ∨ cnt ≤ opts.ApiErrorThreshold then
      ({ st with apiErrorCount := cnt }, CycleOutcome.ok,
        [LogEntry.apiFailure err])
    else
      ({ st with apiErrorCount := cnt }, CycleOutcome.panicked err, [])
  | Except.ok scheduledEvents =>
    let r := collectEvents timeParse scheduledEvents.Events
    ({ apiErrorCount := 0,
       metrics := { scheduledEventVec := r.1,
                    documentIncarnation :=
                      some scheduledEvents.DocumentIncarnation } },
     CycleOutcome.ok,
     r.2 ++ [LogEntry.fetchedVerbose scheduledEvents.Events.length])

/-- An HTTP response as `fetchApiUrl` receives it: status code and body.
The body is kept abstract as a `String`. -/
structure HttpResponse where
  StatusCode : Int
  Body : String
deriving Repr, DecidableEq

/-- The environment `fetchApiUrl` runs in: the outcome of
`http.NewRequest` (`some err` models a construction error), of
`httpClient.Do` (transport error or response), and of
`json.NewDecoder(body).Decode` on a given body. -/
structure FetchEnv where
  newRequestResult : Option String
  doResult : Except String HttpResponse
  decode : String → Except String AzureScheduledEventResponse

/-- `fetchApiUrl` (metrics.go lines 143-164): build the request, perform
it, JSON-decode the body.  Each step's error is returned as-is; the
response's status code is never consulted. -/
def fetchApiUrl (env : FetchEnv) :
    Except String AzureScheduledEventResponse :=
  match env.newRequestResult with
  | some err => Except.error err
  | none =>
    match env.doResult with
    | Except.error err => Except.error err
    | Except.ok resp =>
      match env.decode resp.Body with
      | Except.error err => Except.error err
      | Except.ok ret => Except.ok ret

/-- The samples one event can contribute: one per listed resource, or
the single empty-resource sample when it lists none, every one valued
at the event's computed gauge value. -/
def sampleOfEvent (timeParse : GoTimeParse) (e : AzureScheduledEvent)
    (p : Labels × Int) : Prop :=
  (∃ r ∈ e.Resources, p = (eventLabels e r, (eventValue timeParse e).1)) ∨
  (e.Resources = [] ∧ p = (eventLabels e "", (eventValue timeParse e).1))

/-- A label tuple has a sample (of some value) in the vector. -/
def labelPresent (vec : List (Labels × Int)) (l : Labels) : Prop :=
  ∃ v, (l, v) ∈ vec

/-- The samples an event emits, listed: one per resource with the
resource label varying, or the one empty-resource sample. -/
def emittedSamples (timeParse : GoTimeParse) (e : AzureScheduledEvent) :
    List (Labels × Int) :=
  if e.Resources.length ≥ 1 then
    e.Resources.map (fun r => (eventLabels e r, (eventValue timeParse e).1))
  else
    [(eventLabels e "", (eventValue timeParse e).1)]

/-- Iterate `probeCollect` on consecutive fetch failures: run `n` failing
cycles from `st`, stopping at the state and outcome of the first cycle
that panics (a panic terminates the process, so no later cycle runs). -/
def runFailStreak (opts : Opts) (timeParse : GoTimeParse) (err : String) :
    Nat → CollectorState → CollectorState × CycleOutcome
  | 0, st => (st, CycleOutcome.ok)
  | Nat.succ n, st =>
    let r := probeCollect opts timeParse (Except.error err) st
    match r.2.1 with
    | CycleOutcome.ok => runFailStreak opts timeParse err n r.1
    | CycleOutcome.panicked m => (r.1, CycleOutcome.panicked m)

section Lemmas

/-- Anything in the vector after one `Set` was there before or is the
sample just set. -/
lemma mem_gaugeSet_elim {vec : List (Labels × Int)} {l : Labels} {v : Int}
    {p : Labels × Int} (h : p ∈ gaugeSet vec l v) : p ∈ vec ∨ p = (l, v) := by
  rcases List.mem_append.mp h with h1 | h1
  · exact Or.inl (List.mem_of_mem_filter h1)
  · exact Or.inr (List.mem_singleton.mp h1)

/-- The sample just set is present. -/
lemma labelPresent_gaugeSet_self (vec : List (Labels × Int)) (l : Labels)
    (v : Int) : labelPresent (gaugeSet vec l v) l :=
  ⟨v, List.mem_append.mpr (Or.inr (List.mem_singleton.mpr rfl))⟩

/-- Setting one sample never removes another label from the vector
(it can only change the value stored at the same label). -/
lemma labelPresent_gaugeSet_mono {vec : List (Labels × Int)} {l : Labels}
    (l2 : Labels) (v2 : Int) (h : labelPresent vec l) :
    labelPresent (gaugeSet vec l2 v2) l := by
  by_cases hl : l = l2
  · exact hl ▸ labelPresent_gaugeSet_self vec l2 v2
  · obtain ⟨v, hv⟩ := h
    exact ⟨v, List.mem_append.mpr (Or.inl (List.mem_filter.mpr
      ⟨hv, by simpa using hl⟩))⟩

/-- Membership after the resource fan-out fold: old sample or one of the
newly set `(f r, v)` samples. -/
lemma mem_foldl_gaugeSet {α : Type} (f : α → Labels) (v : Int) :
    ∀ (rs : List α) (vec : List (Labels × Int)) (p : Labels × Int),
      p ∈ rs.foldl (fun acc r => gaugeSet acc (f r) v) vec →
      p ∈ vec ∨ ∃ r ∈ rs, p = (f r, v)
  | [], vec, p, h => Or.inl h
  | r :: rs, vec, p, h => by
    rcases mem_foldl_gaugeSet f v rs (gaugeSet vec (f r) v) p h with h1 | h1
    · rcases mem_gaugeSet_elim h1 with h2 | h2
      · exact Or.inl h2
      · exact Or.inr ⟨r, List.mem_cons_self r rs, h2⟩
    · obtain ⟨x, hx, hp⟩ := h1
      exact Or.inr ⟨x, List.mem_cons_of_mem r hx, hp⟩

/-- Label presence survives the resource fan-out fold. -/
lemma labelPresent_foldl_gaugeSet_mono {α : Type} (f : α → Labels) (v : Int) :
    ∀ (rs : List α) (vec : List (Labels × Int)) (l : Labels),
      labelPresent vec l →
      labelPresent (rs.foldl (fun acc r => gaugeSet acc (f r) v) vec) l
  | [], _, _, h => h
  | r :: rs, vec, l, h =>
    labelPresent_foldl_gaugeSet_mono f v rs (gaugeSet vec (f r) v) l
      (labelPresent_gaugeSet_mono (f r) v h)

/-- The resource fan-out fold sets every resource's label. -/
lemma labelPresent_foldl_gaugeSet_self {α : Type} (f : α → Labels) (v : Int) :
    ∀ (rs : List α) (vec : List (Labels × Int)) (r : α), r ∈ rs →
      labelPresent (rs.foldl (fun acc x => gaugeSet acc (f x) v) vec) (f r)
  | [], _, _, h => absurd h (List.not_mem_nil _)
  | x :: rs, vec, r, h => by
    rcases List.mem_cons.mp h with h1 | h1
    · subst h1
      exact labelPresent_foldl_gaugeSet_mono f v rs _ _
        (labelPresent_gaugeSet_self vec (f r) v)
    · exact labelPresent_foldl_gaugeSet_self f v rs _ r h1

/-- The log entries one event-loop iteration emits are exactly the ones
of the event's value computation, whatever the vector holds. -/
lemma publishEvent_snd (timeParse : GoTimeParse) (vec : List (Labels × Int))
    (e : AzureScheduledEvent) :
    (publishEvent timeParse vec e).2 = (eventValue timeParse e).2 := rfl

/-- After one event is published, every sample was already there or is
one of the event's own samples. -/
lemma mem_publishEvent {timeParse : GoTimeParse} {vec : List (Labels × Int)}
    {e : AzureScheduledEvent} {p : Labels × Int}
    (h : p ∈ (publishEvent timeParse vec e).1) :
    p ∈ vec ∨ sampleOfEvent timeParse e p := by
  by_cases hr : e.Resources.length ≥ 1
  · simp only [publishEvent, hr, if_pos] at h
    rcases mem_foldl_gaugeSet (eventLabels e) (eventValue timeParse e).1
        e.Resources vec p h with h1 | h1
    · exact Or.inl h1
    · exact Or.inr (Or.inl h1)
  · have hnil : e.Resources = [] := by
      simpa using List.length_eq_zero.mp (by omega)
    simp only [publishEvent, hr, if_neg, if_false] at h
    rcases mem_gaugeSet_elim h with h1 | h1
    · exact Or.inl h1
    · exact Or.inr (Or.inr ⟨hnil, h1⟩)

/-- Publishing an event never removes a label from the vector. -/
lemma labelPresent_publishEvent_mono {vec : List (Labels × Int)} {l : Labels}
    (timeParse : GoTimeParse) (e : AzureScheduledEvent)
    (h : labelPresent vec l) :
    labelPresent (publishEvent timeParse vec e).1 l := by
  by_cases hr : e.Resources.length ≥ 1
  · simp only [publishEvent, hr, if_pos]
    exact labelPresent_foldl_gaugeSet_mono _ _ _ _ _ h
  · simp only [publishEvent, hr, if_neg, if_false]
    exact labelPresent_gaugeSet_mono _ _ h

/-- Publishing an event makes every one of its per-resource labels
present. -/
lemma labelPresent_publishEvent_resource {e : AzureScheduledEvent}
    {r : String} (timeParse : GoTimeParse) (vec : List (Labels × Int))
    (hr : r ∈ e.Resources) :
    labelPresent (publishEvent timeParse vec e).1 (eventLabels e r) := by
  have hlen : e.Resources.length ≥ 1 := by
    cases hres : e.Resources with
    | nil => rw [hres] at hr; exact absurd hr (List.not_mem_nil r)
    | cons a rs => simp [hres]
  simp only [publishEvent, hlen, if_pos]
  exact labelPresent_foldl_gaugeSet_self _ _ _ _ _ hr

/-- Publishing a resource-less event makes its empty-resource label
present. -/
lemma labelPresent_publishEvent_empty {e : AzureScheduledEvent}
    (timeParse : GoTimeParse) (vec : List (Labels × Int))
    (hnil : e.Resources = []) :
    labelPresent (publishEvent timeParse vec e).1 (eventLabels e "") := by
  have hr : ¬ e.Resources.length ≥ 1 := by simp [hnil]
  simp only [publishEvent, hr, if_neg, if_false]
  exact labelPresent_gaugeSet_self _ _ _

/-- After the whole event loop, every sample comes from the starting
vector or from some event of the list. -/
lemma mem_foldl_collectStep (timeParse : GoTimeParse) :
    ∀ (events : List AzureScheduledEvent)
      (acc : List (Labels × Int) × List LogEntry) (p : Labels × Int),
      p ∈ (events.foldl (collectStep timeParse) acc).1 →
      p ∈ acc.1 ∨ ∃ e ∈ events, sampleOfEvent timeParse e p
  | [], _, _, h => Or.inl h
  | e :: events, acc, p, h => by
    rcases mem_foldl_collectStep timeParse events (collectStep timeParse acc e)
        p h with h1 | h1
    · rcases mem_publishEvent h1 with h2 | h2
      · exact Or.inl h2
      · exact Or.inr ⟨e, List.mem_cons_self e events, h2⟩
    · obtain ⟨x, hx, hp⟩ := h1
      exact Or.inr ⟨x, List.mem_cons_of_mem e hx, hp⟩

/-- The event loop never removes a label from the vector. -/
lemma labelPresent_foldl_collectStep_mono (timeParse : GoTimeParse) :
    ∀ (events : List AzureScheduledEvent)
      (acc : List (Labels × Int) × List LogEntry) (l : Labels),
      labelPresent acc.1 l →
      labelPresent (events.foldl (collectStep timeParse) acc).1 l
  | [], _, _, h => h
  | e :: events, acc, l, h =>
    labelPresent_foldl_collectStep_mono timeParse events
      (collectStep timeParse acc e) l
      (labelPresent_publishEvent_mono timeParse e h)

/-- The event loop makes every label of every listed event present. -/
lemma labelPresent_foldl_collectStep_event (timeParse : GoTimeParse) :
    ∀ (events : List AzureScheduledEvent)
      (acc : List (Labels × Int) × List LogEntry)
      (e : AzureScheduledEvent), e ∈ events →
      (∀ r ∈ e.Resources,
        labelPresent (events.foldl (collectStep timeParse) acc).1
          (eventLabels e r)) ∧
      (e.Resources = [] →
        labelPresent (events.foldl (collectStep timeParse) acc).1
          (eventLabels e ""))
  | [], _, _, h => absurd h (List.not_mem_nil _)
  | x :: events, acc, e, h => by
    rcases List.mem_cons.mp h with h1 | h1
    · subst h1
      constructor
      · intro r hr
        exact labelPresent_foldl_collectStep_mono timeParse events _ _
          (labelPresent_publishEvent_resource timeParse acc.1 hr)
      · intro hnil
        exact labelPresent_foldl_collectStep_mono timeParse events _ _
          (labelPresent_publishEvent_empty timeParse acc.1 hnil)
    · exact labelPresent_foldl_collectStep_event timeParse events
        (collectStep timeParse acc x) e h1

/-- Log entries already accumulated survive the rest of the event loop. -/
lemma mem_foldl_collectStep_logs_mono (timeParse : GoTimeParse) :
    ∀ (events : List AzureScheduledEvent)
      (acc : List (Labels × Int) × List LogEntry) (x : LogEntry),
      x ∈ acc.2 → x ∈ (events.foldl (collectStep timeParse) acc).2
  | [], _, _, h => h
  | e :: events, acc, x, h =>
    mem_foldl_collectStep_logs_mono timeParse events
      (collectStep timeParse acc e) x
      (List.mem_append.mpr (Or.inl h))

/-- The event loop emits every log entry of every listed event's value
computation. -/
lemma mem_foldl_collectStep_logs_event (timeParse : GoTimeParse) :
    ∀ (events : List AzureScheduledEvent)
      (acc : List (Labels × Int) × List LogEntry)
      (e : AzureScheduledEvent), e ∈ events →
      ∀ x ∈ (eventValue timeParse e).2,
        x ∈ (events.foldl (collectStep timeParse) acc).2
  | [], _, _, h => absurd h (List.not_mem_nil _)
  | y :: events, acc, e, h => by
    rcases List.mem_cons.mp h with h1 | h1
    · subst h1
      intro x hx
      refine mem_foldl_collectStep_logs_mono timeParse events
        (collectStep timeParse acc e) x ?_
      exact List.mem_append.mpr (Or.inr (by
        rw [publishEvent_snd]; exact hx))
    · exact mem_foldl_collectStep_logs_event timeParse events
        (collectStep timeParse acc y) e h1

/-- The layout loop fails exactly when every layout fails. -/
lemma parseTimeAux_eq_none_iff (timeParse : GoTimeParse) (v : String) :
    ∀ fs : List String,
      parseTimeAux timeParse v fs = none ↔ ∀ f ∈ fs, timeParse f v = none
  | [] => by simp [parseTimeAux]
  | f :: fs => by
    cases h : timeParse f v with
    | some t =>
      simp only [parseTimeAux, h]
      constructor
      · intro hc; exact Option.noConfusion hc
      · intro hall
        have hf := hall f (List.mem_cons_self f fs)
        rw [h] at hf
        exact Option.noConfusion hf
    | none =>
      simp only [parseTimeAux, h]
      rw [parseTimeAux_eq_none_iff timeParse v fs]
      constructor
      · intro hall g hg
        rcases List.mem_cons.mp hg with h1 | h1
        · exact h1 ▸ h
        · exact hall g h1
      · intro hall g hg
        exact hall g (List.mem_cons_of_mem f hg)

/-- The layout loop returns `some t` exactly when some layout of the
list parses the value to `t` and every layout before it fails: the first
successful layout wins. -/
lemma parseTimeAux_eq_some_iff (timeParse : GoTimeParse) (v : String)
    (t : GoTime) :
    ∀ fs : List String,
      parseTimeAux timeParse v fs = some t ↔
        ∃ pre format post, fs = pre ++ format :: post ∧
          (∀ g ∈ pre, timeParse g v = none) ∧ timeParse format v = some t
  | [] => by
    simp only [parseTimeAux]
    constructor
    · intro hc; exact Option.noConfusion hc
    · rintro ⟨pre, format, post, hfs, -, -⟩
      exact absurd hfs.symm (List.append_ne_nil_of_right_ne_nil pre
        (List.cons_ne_nil format post))
  | f :: fs => by
    cases h : timeParse f v with
    | some u =>
      simp only [parseTimeAux, h]
      constructor
      · intro hc
        exact ⟨[], f, fs, rfl,
          fun g hg => absurd hg (List.not_mem_nil g), h.trans hc⟩
      · rintro ⟨pre, format, post, hfs, hpre, hfmt⟩
        cases pre with
        | nil =>
          obtain ⟨hf, -⟩ := List.cons.injEq _ _ _ _ ▸ hfs
          rw [hf] at h
          rw [h] at hfmt
          exact hfmt
        | cons g pre2 =>
          obtain ⟨hg, -⟩ := List.cons.injEq _ _ _ _ ▸ hfs
          have hgn := hpre g (List.mem_cons_self g pre2)
          rw [hg] at h
          rw [hgn] at h
          exact Option.noConfusion h
    | none =>
      simp only [parseTimeAux, h]
      rw [parseTimeAux_eq_some_iff timeParse v t fs]
      constructor
      · rintro ⟨pre, format, post, hfs, hpre, hfmt⟩
        refine ⟨f :: pre, format, post, by rw [hfs]; rfl, ?_, hfmt⟩
        intro g hg
        rcases List.mem_cons.mp hg with h1 | h1
        · exact h1 ▸ h
        · exact hpre g h1
      · rintro ⟨pre, format, post, hfs, hpre, hfmt⟩
        cases pre with
        | nil =>
          obtain ⟨hf, -⟩ := List.cons.injEq _ _ _ _ ▸ hfs
          rw [← hf] at hfmt
          rw [h] at hfmt
          exact Option.noConfusion hfmt
        | cons g pre2 =>
          obtain ⟨hg, htl⟩ := List.cons.injEq _ _ _ _ ▸ hfs
          exact ⟨pre2, format, post, htl, fun x hx =>
            hpre x (List.mem_cons_of_mem g hx), hfmt⟩

/-- With a non-positive threshold every failing cycle tolerates: `n`
consecutive failures only raise the counter by `n` and never touch the
rest of the state. -/
lemma runFailStreak_nonpos (opts : Opts) (timeParse : GoTimeParse)
    (err : String) (h0 : opts.ApiErrorThreshold ≤ 0) :
    ∀ (n : Nat) (st : CollectorState),
      runFailStreak opts timeParse err n st =
        ({ st with apiErrorCount := st.apiErrorCount + n }, CycleOutcome.ok)
  | 0, st => by simp [runFailStreak]
  | Nat.succ n, st => by
    have hcond : opts.ApiErrorThreshold ≤ 0 ∨
        st.apiErrorCount + 1 ≤ opts.ApiErrorThreshold := Or.inl h0
    simp only [runFailStreak, probeCollect, if_pos hcond]
    rw [runFailStreak_nonpos opts timeParse err h0 n]
    congr 1
    simp only [CollectorState.mk.injEq]
    refine ⟨?_, trivial⟩
    push_cast; ring

/-- With any threshold, as long as the counter stays at or below it,
`n` failing cycles all tolerate and raise the counter by `n`. -/
lemma runFailStreak_le_threshold (opts : Opts) (timeParse : GoTimeParse)
    (err : String) :
    ∀ (n : Nat) (st : CollectorState),
      st.apiErrorCount + n ≤ opts.ApiErrorThreshold →
      runFailStreak opts timeParse err n st =
        ({ st with apiErrorCount := st.apiErrorCount + n }, CycleOutcome.ok)
  | 0, st, _ => by simp [runFailStreak]
  | Nat.succ n, st, hle => by
    have hcond : opts.ApiErrorThreshold ≤ 0 ∨
        st.apiErrorCount + 1 ≤ opts.ApiErrorThreshold := by
      right; push_cast at hle; omega
    simp only [runFailStreak, probeCollect, if_pos hcond]
    rw [runFailStreak_le_threshold opts timeParse err n
      { st with apiErrorCount := st.apiErrorCount + 1 }
      (by simpa using by push_cast at hle ⊢; omega)]
    congr 1
    simp only [CollectorState.mk.injEq]
    refine ⟨?_, trivial⟩
    push_cast; ring

/-- A streak splits: when the first `a` failures all tolerate, the
remaining `b` continue from the state they left. -/
lemma runFailStreak_add (opts : Opts) (timeParse : GoTimeParse)
    (err : String) :
    ∀ (a b : Nat) (st : CollectorState),
      (runFailStreak opts timeParse err a st).2 = CycleOutcome.ok →
      runFailStreak opts timeParse err (a + b) st =
        runFailStreak opts timeParse err b
          (runFailStreak opts timeParse err a st).1
  | 0, b, st, _ => by simp [runFailStreak, Nat.zero_add]
  | Nat.succ a, b, st, hok => by
    have hsucc : Nat.succ a + b = Nat.succ (a + b) := by omega
    rw [hsucc]
    by_cases hc : opts.ApiErrorThreshold ≤ 0 ∨
        st.apiErrorCount + 1 ≤ opts.ApiErrorThreshold
    · simp only [runFailStreak, probeCollect, if_pos hc] at hok ⊢
      exact runFailStreak_add opts timeParse err a b _ hok
    · simp only [runFailStreak, probeCollect, if_neg hc] at hok
      exact absurd hok (by simp)

end Lemmas

/-- Concrete parse oracle for witnesses: every layout fails. -/
def tpNone : GoTimeParse := fun _ _ => none

/-- Concrete parse oracle for witnesses: only the RFC3339 layout parses
the one timestamp 2024-01-01T00:00:00Z, whose Unix seconds are
1704067200. -/
def tpRFC : GoTimeParse := fun layout v =>
  if layout = RFC3339 ∧ v = "2024-01-01T00:00:00Z" then some ⟨1704067200⟩
  else none

/-- Concrete event for witnesses: empty NotBefore, one resource. -/
def evEmptyNB : AzureScheduledEvent :=
  ⟨"id1", "Reboot", "VirtualMachine", ["vm1"], "Scheduled", ""⟩

/-- Concrete event for witnesses: unparseable NotBefore. -/
def evBadNB : AzureScheduledEvent :=
  ⟨"id2", "Reboot", "VirtualMachine", ["vm1"], "Scheduled", "not-a-date"⟩

/-- Concrete event for witnesses: RFC3339 NotBefore, two resources. -/
def evGoodNB : AzureScheduledEvent :=
  ⟨"id3", "Reboot", "VirtualMachine", ["vm1", "vm2"], "Scheduled",
   "2024-01-01T00:00:00Z"⟩

/-- C5: for every prior value of the consecutive-failure counter, a
single successful fetch resets `apiErrorCount` to 0 before publishing
(metrics.go line 97). -/
theorem probeCollect_success_resets_counter (opts : Opts)
    (timeParse : GoTimeParse) (resp : AzureScheduledEventResponse)
    (st : CollectorState) :
    (probeCollect opts timeParse (Except.ok resp) st).1.apiErrorCount = 0 :=
  rfl

/-- C6: after every successful cycle the document-incarnation gauge
equals the snapshot's `DocumentIncarnation`, set unconditionally (also
for an empty event list, since no hypothesis on `resp.Events` is made);
a failed cycle, tolerated or escalated, leaves it unchanged. -/
theorem probeCollect_document_incarnation (opts : Opts)
    (timeParse : GoTimeParse) (resp : AzureScheduledEventResponse)
    (err : String) (st : CollectorState) :
    (probeCollect opts timeParse (Except.ok resp) st).1.metrics.documentIncarnation
      = some resp.DocumentIncarnation ∧
    (probeCollect opts timeParse (Except.error err) st).1.metrics.documentIncarnation
      = st.metrics.documentIncarnation := by
  constructor
  · rfl
  · simp only [probeCollect]
    split <;> rfl

/-- C7: on every failed cycle — tolerated or escalated — the published
metric state (event vector and document-incarnation gauge) is left
entirely unchanged. -/
theorem probeCollect_failure_preserves_metrics (opts : Opts)
    (timeParse : GoTimeParse) (err : String) (st : CollectorState) :
    (probeCollect opts timeParse (Except.error err) st).1.metrics = st.metrics := by
  simp only [probeCollect]
  split <;> rfl

/-- C9 (counterexample): neither gauge carries the name the claim
states — the code prefixes both with an `azure_` namespace
(metrics.go lines 30 and 38). -/
theorem metric_names_counterexample :
    scheduledEventDocumentIncarnation.opts.Name ≠
      "scheduledevent_document_incarnation" ∧
    scheduledEvent.opts.Name ≠ "scheduledevent_event" := by
  constructor <;> decide

/-- C9 (amended): the two gauges are named
`azure_scheduledevent_document_incarnation` (no labels) and
`azure_scheduledevent_event` (labels `eventID`, `eventType`,
`resourceType`, `resource`, `eventStatus`, `notBefore`, in that
order). -/
theorem metric_names_and_labels :
    scheduledEventDocumentIncarnation.opts.Name =
      "azure_scheduledevent_document_incarnation" ∧
    scheduledEventDocumentIncarnation.labelNames = [] ∧
    scheduledEvent.opts.Name = "azure_scheduledevent_event" ∧
    scheduledEvent.labelNames =
      ["eventID", "eventType", "resourceType", "resource", "eventStatus",
       "notBefore"] :=
  ⟨rfl, rfl, rfl, rfl⟩

/-- C10: `fetchApiUrl` never inspects the response status code: a body
that decodes is a success whatever the status (the result is invariant
under changing the status code), and a failure is exactly a
request-construction error, a transport error, or a decode error. -/
theorem fetchApiUrl_ignores_status (env : FetchEnv) :
    (∀ (resp : HttpResponse) (r : AzureScheduledEventResponse),
      env.newRequestResult = none → env.doResult = Except.ok resp →
      env.decode resp.Body = Except.ok r → fetchApiUrl env = Except.ok r) ∧
    (∀ (resp : HttpResponse) (c : Int),
      fetchApiUrl
          { env with doResult := Except.ok ({ resp with StatusCode := c }) } =
        fetchApiUrl { env with doResult := Except.ok resp }) ∧
    (∀ e, fetchApiUrl env = Except.error e →
      env.newRequestResult = some e ∨ env.doResult = Except.error e ∨
      ∃ resp, env.doResult = Except.ok resp ∧
        env.decode resp.Body = Except.error e) := by
  refine ⟨?_, ?_, ?_⟩
  · intro resp r h1 h2 h3
    simp [fetchApiUrl, h1, h2, h3]
  · intro resp c
    cases h : env.newRequestResult with
    | some e => simp [fetchApiUrl, h]
    | none => simp [fetchApiUrl, h]
  · intro e he
    cases h1 : env.newRequestResult with
    | some x =>
      have hv : fetchApiUrl env = Except.error x := by simp [fetchApiUrl, h1]
      rw [hv] at he
      injection he with hx
      exact Or.inl (by rw [hx])
    | none =>
      cases h2 : env.doResult with
      | error x =>
        have hv : fetchApiUrl env = Except.error x := by
          simp [fetchApiUrl, h1, h2]
        rw [hv] at he
        injection he with hx
        exact Or.inr (Or.inl (by rw [hx]))
      | ok resp =>
        cases h3 : env.decode resp.Body with
        | error x =>
          have hv : fetchApiUrl env = Except.error x := by
            simp [fetchApiUrl, h1, h2, h3]
          rw [hv] at he
          injection he with hx
          exact Or.inr (Or.inr ⟨resp, rfl, by rw [h3, hx]⟩)
        | ok r =>
          have hv : fetchApiUrl env = Except.ok r := by
            simp [fetchApiUrl, h1, h2, h3]
          rw [hv] at he
          exact Except.noConfusion he

/-- Concrete environment for the C10 witness: the transport returns an
HTTP 500 response whose body still decodes. -/
def envStatus500 : FetchEnv :=
  { newRequestResult := none
    doResult := Except.ok ⟨500, "decodable-body"⟩
    decode := fun _ => Except.ok ⟨7, []⟩ }

/-- C10 witness: a decodable body behind a 500 status is still a
successful fetch. -/
theorem fetchApiUrl_ignores_status_witness :
    fetchApiUrl envStatus500 =
      Except.ok ({ DocumentIncarnation := 7, Events := [] }) :=
  (fetchApiUrl_ignores_status envStatus500).1 ⟨500, "decodable-body"⟩
    ⟨7, []⟩ rfl rfl rfl

/-- C8: `parseTime` tries the fixed ordered layout list and returns the
first layout's successful parse: it fails exactly when every layout of
`timeFormatList` fails, and returns `some t` exactly when some layout
parses the value to `t` with every earlier layout failing. -/
theorem parseTime_first_layout (timeParse : GoTimeParse) (value : String) :
    (parseTime timeParse value = none ↔
      ∀ f ∈ timeFormatList, timeParse f value = none) ∧
    (∀ t, parseTime timeParse value = some t ↔
      ∃ pre format post, timeFormatList = pre ++ format :: post ∧
        (∀ g ∈ pre, timeParse g value = none) ∧
        timeParse format value = some t) :=
  ⟨parseTimeAux_eq_none_iff timeParse value timeFormatList,
   fun t => parseTimeAux_eq_some_iff timeParse value t timeFormatList⟩

/-- C8 witness: under the concrete oracle `tpRFC`, the RFC3339 layout
(first of the list, nothing before it to fail) parses the sample
timestamp. -/
theorem parseTime_first_layout_witness :
    parseTime tpRFC "2024-01-01T00:00:00Z" = some ⟨1704067200⟩ :=
  ((parseTime_first_layout tpRFC "2024-01-01T00:00:00Z").2 ⟨1704067200⟩).mpr
    ⟨[], RFC3339, [RFC1123, RFC822Z, RFC850], rfl,
     fun g hg => absurd hg (List.not_mem_nil g), by decide⟩

/-- C3: the per-event gauge value is `1` for an empty `NotBefore`, the
parsed timestamp's Unix seconds when the parser succeeds, and `0` plus a
parse-failure log entry (carrying the event id and the raw string) when
it fails; every sample a publish adds for the event carries that value,
and the cycle's log output contains the event's parse-failure entry. -/
theorem eventValue_spec (timeParse : GoTimeParse) (e : AzureScheduledEvent) :
    (e.NotBefore = "" → eventValue timeParse e = (1, [])) ∧
    (∀ t, e.NotBefore ≠ "" → parseTime timeParse e.NotBefore = some t →
      eventValue timeParse e = (t.unix, [])) ∧
    (e.NotBefore ≠ "" → parseTime timeParse e.NotBefore = none →
      eventValue timeParse e =
        (0, [LogEntry.parseFailure e.NotBefore e.EventId])) ∧
    (∀ (vec : List (Labels × Int)) (p : Labels × Int),
      p ∈ (publishEvent timeParse vec e).1 → p ∉ vec →
      p.2 = (eventValue timeParse e).1) ∧
    (∀ (opts : Opts) (st : CollectorState)
        (resp : AzureScheduledEventResponse),
      e ∈ resp.Events → ∀ x ∈ (eventValue timeParse e).2,
        x ∈ (probeCollect opts timeParse (Except.ok resp) st).2.2) := by
  refine ⟨?_, ?_, ?_, ?_, ?_⟩
  · intro h
    simp [eventValue, h]
  · intro t hne hp
    simp [eventValue, hne, hp]
  · intro hne hp
    simp [eventValue, hne, hp]
  · intro vec p hmem hnot
    rcases mem_publishEvent hmem with h | h
    · exact absurd h hnot
    · rcases h with ⟨r, -, hp⟩ | ⟨-, hp⟩ <;> rw [hp]
  · intro opts st resp he x hx
    have hlog := mem_foldl_collectStep_logs_event timeParse resp.Events
      ([], []) e he x hx
    exact List.mem_append.mpr (Or.inl hlog)

/-- C3 witness: with the concrete oracle `tpRFC`, the empty, parseable
and unparseable `NotBefore` strings give values 1, 1704067200 and 0, the
last with its parse-failure log entry. -/
theorem eventValue_spec_witness :
    eventValue tpRFC evEmptyNB = (1, []) ∧
    eventValue tpRFC evGoodNB = (1704067200, []) ∧
    eventValue tpRFC evBadNB =
      (0, [LogEntry.parseFailure "not-a-date" "id2"]) :=
  ⟨(eventValue_spec tpRFC evEmptyNB).1 rfl,
   (eventValue_spec tpRFC evGoodNB).2.1 ⟨1704067200⟩ (by decide) (by decide),
   (eventValue_spec tpRFC evBadNB).2.2.1 (by decide) (by decide)⟩

/-- C4: publishing an event is exactly the upsert of its emitted
samples; with `n ≥ 1` resources those are one sample per resource, in
order, all carrying the event's computed value and differing only in
the resource label; with zero resources, exactly the one sample with
empty resource label — so the emitted list is never empty. -/
theorem publishEvent_fanout (timeParse : GoTimeParse)
    (e : AzureScheduledEvent) (vec : List (Labels × Int)) :
    (publishEvent timeParse vec e).1 =
      (emittedSamples timeParse e).foldl
        (fun acc p => gaugeSet acc p.1 p.2) vec ∧
    (e.Resources.length ≥ 1 →
      (emittedSamples timeParse e).length = e.Resources.length ∧
      (emittedSamples timeParse e).map Prod.fst =
        e.Resources.map (eventLabels e)) ∧
    (e.Resources = [] →
      emittedSamples timeParse e =
        [(eventLabels e "", (eventValue timeParse e).1)]) ∧
    (∀ p ∈ emittedSamples timeParse e,
      p.2 = (eventValue timeParse e).1 ∧
      p.1 = eventLabels e p.1.resource) ∧
    emittedSamples timeParse e ≠ [] := by
  refine ⟨?_, ?_, ?_, ?_, ?_⟩
  · by_cases hr : e.Resources.length ≥ 1
    · simp [publishEvent, emittedSamples, hr, List.foldl_map]
    · simp [publishEvent, emittedSamples, hr]
  · intro hr
    constructor
    · simp [emittedSamples, hr]
    · simp [emittedSamples, hr]
  · intro hnil
    have hr : ¬ e.Resources.length ≥ 1 := by simp [hnil]
    simp [emittedSamples, hr]
  · intro p hp
    by_cases hr : e.Resources.length ≥ 1
    · simp only [emittedSamples, hr, if_pos, List.mem_map] at hp
      obtain ⟨r, -, hpr⟩ := hp
      rw [← hpr]
      exact ⟨rfl, rfl⟩
    · simp only [emittedSamples, hr, if_neg, if_false,
        List.mem_singleton] at hp
      rw [hp]
      exact ⟨rfl, rfl⟩
  · by_cases hr : e.Resources.length ≥ 1
    · have : e.Resources ≠ [] := by
        cases h : e.Resources with
        | nil => rw [h] at hr; simp at hr
        | cons a rs => exact List.cons_ne_nil a rs
      simp [emittedSamples, hr, this]
    · simp [emittedSamples, hr]

/-- C4 witness: the two-resource event emits exactly two samples and the
emitted list is non-empty. -/
theorem publishEvent_fanout_witness :
    (emittedSamples tpRFC evGoodNB).length = evGoodNB.Resources.length ∧
    emittedSamples tpRFC evGoodNB ≠ [] :=
  ⟨((publishEvent_fanout tpRFC evGoodNB []).2.1 (by decide)).1,
   (publishEvent_fanout tpRFC evGoodNB []).2.2.2.2⟩

/-- A streak whose first failing cycle exceeds a positive threshold
panics immediately with the triggering error. -/
lemma runFailStreak_succ_panic (opts : Opts) (timeParse : GoTimeParse)
    (err : String) (n : Nat) (st : CollectorState)
    (h : ¬(opts.ApiErrorThreshold ≤ 0 ∨
        st.apiErrorCount + 1 ≤ opts.ApiErrorThreshold)) :
    (runFailStreak opts timeParse err (n + 1) st).2 =
      CycleOutcome.panicked err := by
  simp only [runFailStreak, probeCollect, if_neg h]

/-- C1: on every fetch failure the counter is incremented; the cycle
tolerates (normal return, metrics untouched, one failure log line) when
the threshold is non-positive or the new count is still at most the
threshold, and panics with the triggering error otherwise; hence from a
fresh counter a positive threshold `T` tolerates exactly `T` consecutive
failures and panics on the `(T+1)`-th, while a non-positive threshold
never panics. -/
theorem probeCollect_escalation (opts : Opts) (timeParse : GoTimeParse)
    (err : String) (st : CollectorState) :
    ((probeCollect opts timeParse (Except.error err) st).1.apiErrorCount
        = st.apiErrorCount + 1) ∧
    ((opts.ApiErrorThreshold ≤ 0 ∨
        st.apiErrorCount + 1 ≤ opts.ApiErrorThreshold) →
      probeCollect opts timeParse (Except.error err) st =
        ({ st with apiErrorCount := st.apiErrorCount + 1 }, CycleOutcome.ok,
         [LogEntry.apiFailure err])) ∧
    (0 < opts.ApiErrorThreshold →
      opts.ApiErrorThreshold < st.apiErrorCount + 1 →
      probeCollect opts timeParse (Except.error err) st =
        ({ st with apiErrorCount := st.apiErrorCount + 1 },
         CycleOutcome.panicked err, [])) ∧
    (st.apiErrorCount = 0 → 0 < opts.ApiErrorThreshold →
      (runFailStreak opts timeParse err opts.ApiErrorThreshold.toNat st).2 =
        CycleOutcome.ok ∧
      (runFailStreak opts timeParse err (opts.ApiErrorThreshold.toNat + 1)
          st).2 = CycleOutcome.panicked err) ∧
    (opts.ApiErrorThreshold ≤ 0 →
      ∀ n : Nat,
        (runFailStreak opts timeParse err n st).2 = CycleOutcome.ok) := by
  refine ⟨?_, ?_, ?_, ?_, ?_⟩
  · simp only [probeCollect]
    split <;> rfl
  · intro h
    simp only [probeCollect, if_pos h]
  · intro h1 h2
    have hn : ¬(opts.ApiErrorThreshold ≤ 0 ∨
        st.apiErrorCount + 1 ≤ opts.ApiErrorThreshold) := by omega
    simp only [probeCollect, if_neg hn]
  · intro hz hpos
    have htn : ((opts.ApiErrorThreshold.toNat : Nat) : Int) =
        opts.ApiErrorThreshold := Int.toNat_of_nonneg (le_of_lt hpos)
    have hfirst := runFailStreak_le_threshold opts timeParse err
      opts.ApiErrorThreshold.toNat st (by rw [hz, htn]; omega)
    refine ⟨by rw [hfirst], ?_⟩
    rw [runFailStreak_add opts timeParse err opts.ApiErrorThreshold.toNat 1
      st (by rw [hfirst])]
    rw [hfirst]
    have hS : ({ st with apiErrorCount := st.apiErrorCount +
        (opts.ApiErrorThreshold.toNat : Int) } : CollectorState).apiErrorCount
        = st.apiErrorCount + (opts.ApiErrorThreshold.toNat : Int) := rfl
    have hcond : ¬(opts.ApiErrorThreshold ≤ 0 ∨
        ({ st with apiErrorCount := st.apiErrorCount +
          (opts.ApiErrorThreshold.toNat : Int) } :
            CollectorState).apiErrorCount + 1 ≤ opts.ApiErrorThreshold) := by
      rw [hS, hz, htn]
      omega
    exact runFailStreak_succ_panic opts timeParse err 0 _ hcond
  · intro h0 n
    rw [runFailStreak_nonpos opts timeParse err h0 n st]

/-- C1 witness: with threshold 2 and a fresh counter, two consecutive
failures tolerate and the third panics with the fetch error. -/
theorem probeCollect_escalation_witness :
    (runFailStreak ⟨2⟩ tpNone "fetch failed" 2 ⟨0, ⟨[], none⟩⟩).2 =
      CycleOutcome.ok ∧
    (runFailStreak ⟨2⟩ tpNone "fetch failed" 3 ⟨0, ⟨[], none⟩⟩).2 =
      CycleOutcome.panicked "fetch failed" :=
  (probeCollect_escalation ⟨2⟩ tpNone "fetch failed"
    ⟨0, ⟨[], none⟩⟩).2.2.2.1 rfl (by decide)

/-- C2: after a successful cycle the event vector holds only samples
derivable from the snapshot just fetched (each traced to an event and a
resource of that snapshot), every such label combination is present,
and the resulting vector does not depend on the state the cycle started
from — no sample of an earlier snapshot survives. -/
theorem probeCollect_replace_rebuild (opts : Opts) (timeParse : GoTimeParse)
    (resp : AzureScheduledEventResponse) (st : CollectorState) :
    (∀ p ∈
        (probeCollect opts timeParse
          (Except.ok resp) st).1.metrics.scheduledEventVec,
      ∃ e ∈ resp.Events, sampleOfEvent timeParse e p) ∧
    (∀ e ∈ resp.Events,
      (∀ r ∈ e.Resources,
        labelPresent
          (probeCollect opts timeParse
            (Except.ok resp) st).1.metrics.scheduledEventVec
          (eventLabels e r)) ∧
      (e.Resources = [] →
        labelPresent
          (probeCollect opts timeParse
            (Except.ok resp) st).1.metrics.scheduledEventVec
          (eventLabels e ""))) ∧
    (∀ st2 : CollectorState,
      (probeCollect opts timeParse
          (Except.ok resp) st).1.metrics.scheduledEventVec =
      (probeCollect opts timeParse
          (Except.ok resp) st2).1.metrics.scheduledEventVec) := by
  refine ⟨?_, ?_, ?_⟩
  · intro p hp
    have hp2 : p ∈ (resp.Events.foldl (collectStep timeParse) ([], [])).1 :=
      hp
    rcases mem_foldl_collectStep timeParse resp.Events ([], []) p hp2 with
      h | h
    · exact absurd h (List.not_mem_nil p)
    · exact h
  · intro e he
    exact labelPresent_foldl_collectStep_event timeParse resp.Events
      ([], []) e he
  · intro st2
    rfl

/-- Concrete snapshot for the C2 witness. -/
def respA : AzureScheduledEventResponse := ⟨3, [evGoodNB]⟩

/-- Concrete stale state for the C2 witness: a sample of another event
and an old incarnation value. -/
def stStale : CollectorState :=
  ⟨5, ⟨[(eventLabels evBadNB "vm1", 0)], some 2⟩⟩

/-- C2 witness: publishing the concrete snapshot over a stale state
makes the snapshot event's first resource label present. -/
theorem probeCollect_replace_rebuild_witness :
    labelPresent
      (probeCollect ⟨1⟩ tpRFC
        (Except.ok respA) stStale).1.metrics.scheduledEventVec
      (eventLabels evGoodNB "vm1") :=
  ((probeCollect_replace_rebuild ⟨1⟩ tpRFC respA stStale).2.1 evGoodNB
    (by decide)).1 "vm1" (by decide)
